import Mathlib

/-!
# Routine tracker (`rotinas.js`): data model, operations and derived views

A shallow embedding of the routine/activity record of `src/rotinas.js`, of the
operations that mutate it and of the lists and counts the render functions
compute from it, followed by the properties established about them.

Conventions of the embedding.

* A JavaScript field that the code guards against being absent
  (`r.days && …`, `r.description || ""`, `a.time || ""`, `r.comments || []`,
  `r.repeat || '—'`) is an `Option`; `none` stands for `undefined` / `null`.
* The global `state` is passed explicitly; every handler is a function from the
  state before to the state after.
* Values read from the environment are arguments: the clock (`Date.now()`), the
  fresh identifier (`uid()`), the answer of `confirm`, the weekday index, the
  contents of the form and of the filter controls.
* The engine built-ins that depend on Unicode or locale data
  (`String.prototype.toLowerCase`, `String.prototype.localeCompare`) are
  arguments of the functions that call them. `toLowerCaseAscii` and
  `codeUnitCompare` are their restrictions to ASCII text, used to evaluate the
  functions on concrete inputs.
* `Array.prototype.sort` is stable; it is modelled by the stable insertion sort
  with the relation `cmp a b ≤ 0`.
-/

namespace Rotinas

/-! ## Data model -/

/-- A comment of a routine: `{id, text, time}`. -/
structure Comment where
  id : String
  text : String
  time : Nat
deriving DecidableEq, Repr

/-- A routine: `{id, title, description, time, repeat, days, concluded, comments}`. -/
structure Routine where
  id : String
  title : String
  description : Option String
  time : Option String
  repeat_ : Option String
  days : Option (List String)
  concluded : Bool
  comments : Option (List Comment)
deriving DecidableEq, Repr

/-- An activity log entry: `{time, text}`. -/
structure Activity where
  time : Nat
  text : String
deriving DecidableEq, Repr

/-- The record held in `state`: `{routines, activities}`. -/
structure State where
  routines : List Routine
  activities : List Activity
deriving DecidableEq, Repr

/-! ## String helpers -/

/-- The code points `String.prototype.trim` removes: ECMAScript WhiteSpace and
LineTerminator. -/
def isTrimChar (c : Char) : Bool :=
  let n := c.toNat
  n == 0x09 || n == 0x0A || n == 0x0B || n == 0x0C || n == 0x0D || n == 0x20 ||
  n == 0xA0 || n == 0x1680 || (0x2000 ≤ n && n ≤ 0x200A) || n == 0x2028 ||
  n == 0x2029 || n == 0x202F || n == 0x205F || n == 0x3000 || n == 0xFEFF

/-- `s.trim()`. -/
def trim (s : String) : String :=
  String.mk ((s.toList.dropWhile isTrimChar).reverse.dropWhile isTrimChar).reverse

/-- `s.includes(q)` on strings: `q` occurs in `s` as a contiguous run. -/
def includes (s q : String) : Bool :=
  s.toList.tails.any (fun t => q.toList.isPrefixOf t)

/-- `toLowerCase` on ASCII text: `A`..`Z` are mapped to `a`..`z`. -/
def toLowerCaseAscii (s : String) : String :=
  String.mk (s.toList.map
    (fun c => if 65 ≤ c.toNat ∧ c.toNat ≤ 90 then Char.ofNat (c.toNat + 32) else c))

/-- Comparison of two character sequences by code point, with the sign
convention of `localeCompare`. -/
def compareChars : List Char → List Char → Int
  | [], [] => 0
  | [], _ :: _ => -1
  | _ :: _, [] => 1
  | a :: as, b :: bs =>
    if a.toNat < b.toNat then -1
    else if b.toNat < a.toNat then 1
    else compareChars as bs

/-- `a.localeCompare(b)` on digit-and-colon text such as `"HH:MM"`, where the
collation order is the code point order. -/
def codeUnitCompare (a b : String) : Int :=
  compareChars a.toList b.toList

/-- `list.sort(cmp)`: the stable sort by the comparator `cmp`. -/
def sort (cmp : Routine → Routine → Int) (list : List Routine) : List Routine :=
  list.insertionSort (fun a b => cmp a b ≤ 0)

/-- `t || d` for an optional string: the empty string is falsy. -/
def orElse (t : Option String) (d : String) : String :=
  match t with
  | some s => if s = "" then d else s
  | none => d

/-! ## Operations on the state -/

/-- The first element satisfying `p` with its index: what `list.find(p)` and
`list.findIndex(p)` return, `none` standing for `undefined` and `-1`. -/
def findFirst (p : Routine → Bool) : List Routine → Option (Nat × Routine)
  | [] => none
  | r :: rs => if p r then some (0, r) else (findFirst p rs).map (fun e => (e.1 + 1, e.2))

/-- The values of the routine form when it is submitted: the hidden id, the
text inputs, the select and the values of the checked day boxes. -/
structure Form where
  routineId : String
  title : String
  description : String
  time : String
  repeat_ : String
  days : List String
deriving DecidableEq, Repr

/-- The `id` constant of `saveRoutineFromForm`: `routineId.value || uid()`. -/
def formId (form : Form) (uid : String) : String :=
  if form.routineId = "" then uid else form.routineId

/-- The `data` object `saveRoutineFromForm` builds from the form. -/
def formData (form : Form) (uid : String) : Routine :=
  { id := formId form uid
    title := trim form.title
    description := some (trim form.description)
    time := if form.time = "" then none else some form.time
    repeat_ := some form.repeat_
    days := some form.days
    concluded := false
    comments := some [] }

/-- `saveRoutineFromForm()`: validates the title, then replaces the routine
with the form's id or appends a new one, and logs the action. -/
def saveRoutineFromForm (state : State) (form : Form) (uid : String) (now : Nat) : State :=
  let data := formData form uid
  if data.title = "" then state
  else
    match findFirst (fun r => r.id == data.id) state.routines with
    | some (idx, old) =>
      let data := { data with concluded := old.concluded
                              comments := some (old.comments.getD []) }
      { routines := state.routines.set idx data
        activities := state.activities ++ [⟨now, "Editou rotina: " ++ data.title⟩] }
    | none =>
      { routines := state.routines ++ [data]
        activities := state.activities ++ [⟨now, "Criou rotina: " ++ data.title⟩] }

/-- `toggleComplete(id)`. -/
def toggleComplete (state : State) (id : String) (now : Nat) : State :=
  match findFirst (fun x => x.id == id) state.routines with
  | none => state
  | some (idx, r) =>
    let r := { r with concluded := !r.concluded }
    { routines := state.routines.set idx r
      activities := state.activities ++
        [⟨now, (if r.concluded then "Concluiu" else "Reabriu") ++ ": " ++ r.title⟩] }

/-- `deleteRoutine(id)`; `confirmed` is the answer of `confirm`. -/
def deleteRoutine (state : State) (id : String) (confirmed : Bool) (now : Nat) : State :=
  match findFirst (fun x => x.id == id) state.routines with
  | none => state
  | some (_, r) =>
    if !confirmed then state
    else
      { routines := state.routines.filter (fun x => x.id != id)
        activities := state.activities ++ [⟨now, "Removeu rotina: " ++ r.title⟩] }

/-- The click handler of `addCommentBtn` in the modal opened by
`openComments(id)`: the routine `r` the handler holds is the first routine with
that id; `input` is the text area's value, `nowC` and `nowA` the two clock
readings. -/
def addComment (state : State) (id input uid : String) (nowC nowA : Nat) : State :=
  match findFirst (fun x => x.id == id) state.routines with
  | none => state
  | some (idx, r) =>
    let txt := trim input
    if txt = "" then state
    else
      { routines := state.routines.set idx
          { r with comments := some (r.comments.getD [] ++ [⟨uid, txt, nowC⟩]) }
        activities := state.activities ++ [⟨nowA, "Comentou em " ++ r.title⟩] }

/-- The click handler of the `Remover` button that `renderComments` attaches to
the comment `cid` of the routine shown in the modal; a comment that is not
listed has no button. -/
def removeComment (state : State) (id cid : String) (now : Nat) : State :=
  match findFirst (fun x => x.id == id) state.routines with
  | none => state
  | some (idx, r) =>
    if (r.comments.getD []).any (fun c => c.id == cid) then
      { routines := state.routines.set idx
          { r with comments := some ((r.comments.getD []).filter (fun x => x.id != cid)) }
        activities := state.activities ++ [⟨now, "Removeu comentário em " ++ r.title⟩] }
    else state

/-- The click handler of `clearAllBtn`; `confirmed` is the answer of `confirm`. -/
def clearAll (state : State) (confirmed : Bool) (now : Nat) : State :=
  if !confirmed then state
  else
    { routines := []
      activities := state.activities ++ [⟨now, "Apagou todas as rotinas"⟩] }

/-- The click handler of `bulkCompleteBtn`. -/
def bulkComplete (state : State) (now : Nat) : State :=
  { routines := state.routines.map (fun r => { r with concluded := true })
    activities := state.activities ++ [⟨now, "Marcou todas as rotinas como concluídas"⟩] }

/-- The `allowed` flag of the periodic check for the weekday digit `d`. -/
def allowed (r : Routine) (d : String) : Bool :=
  r.repeat_ == some "daily" ||
  (match r.days with
   | none => false
   | some ds => ds.contains d) ||
  (match r.days with
   | none => true
   | some ds => ds.length == 0)

/-- One run of the `setInterval` callback at the time `hhmm` on the weekday
digit `d`; `now i` is the clock reading while the routine at position `i` is
visited. -/
def periodicCheck (state : State) (hhmm d : String) (now : Nat → Nat) : State :=
  state.routines.enum.foldl
    (fun st e =>
      if e.2.time = some hhmm then
        if allowed e.2 d then
          { st with activities := st.activities ++ [⟨now e.1, "Notificação: " ++ e.2.title⟩] }
        else st
      else st)
    state

/-- What `JSON.parse(reader.result)` and the test `imported.routines` make of an
imported file: the text does not parse, the value has no `routines`, or it is
a record. -/
inductive ImportedFile where
  | unparsable
  | noRoutines
  | record (imported : State)
deriving DecidableEq, Repr

/-- `handleImportFile(e)`; `file` is `none` when no file was chosen. -/
def handleImportFile (state : State) (file : Option ImportedFile) : State :=
  match file with
  | none => state
  | some .unparsable => state
  | some .noRoutines => state
  | some (.record imported) => imported

/-- The mutating operations other than import, with the values they read from
the environment. -/
inductive Operation where
  | submitForm (form : Form) (uid : String) (now : Nat)
  | toggle (id : String) (now : Nat)
  | delete (id : String) (confirmed : Bool) (now : Nat)
  | comment (id input uid : String) (nowC nowA : Nat)
  | uncomment (id cid : String) (now : Nat)
  | bulk (now : Nat)
  | clear (confirmed : Bool) (now : Nat)
  | poll (hhmm d : String) (now : Nat → Nat)

/-- The state after an operation. -/
def Operation.run (state : State) : Operation → State
  | .submitForm form uid now => saveRoutineFromForm state form uid now
  | .toggle id now => toggleComplete state id now
  | .delete id confirmed now => deleteRoutine state id confirmed now
  | .comment id input uid nowC nowA => addComment state id input uid nowC nowA
  | .uncomment id cid now => removeComment state id cid now
  | .bulk now => bulkComplete state now
  | .clear confirmed now => clearAll state confirmed now
  | .poll hhmm d now => periodicCheck state hhmm d now

/-! ## Derived views -/

/-- The list `renderList()` renders: the routines filtered by `filterBy.value`
and by the search text, sorted by `sortBy.value`. `dayIdx` is `todayDayIndex()`. -/
def renderList (toLowerCase : String → String) (localeCompare : String → String → Int)
    (state : State) (searchInput filterBy sortBy : String) (dayIdx : Nat) : List Routine :=
  let q := toLowerCase (trim searchInput)
  let list := state.routines
  let list :=
    if filterBy = "today" then
      list.filter (fun r =>
        match r.days with
        | none => false
        | some ds => ds.contains (toString dayIdx) || r.repeat_ == some "daily")
    else if filterBy = "completed" then list.filter (fun r => r.concluded)
    else if filterBy = "pending" then list.filter (fun r => !r.concluded)
    else list
  let list :=
    if q = "" then list
    else list.filter (fun r =>
      includes (toLowerCase (r.title ++ " " ++ orElse r.description "")) q)
  if sortBy = "name" then sort (fun a b => localeCompare a.title b.title) list
  else if sortBy = "time" then
    sort (fun a b => localeCompare (orElse a.time "") (orElse b.time "")) list
  else sort (fun a b => localeCompare (orElse a.time "23:59") (orElse b.time "23:59")) list

/-- The number `renderSummary()` writes to `totalRoutines`. -/
def totalRoutines (state : State) : Nat :=
  state.routines.length

/-- The number `renderSummary()` writes to `completedToday`. -/
def completedToday (state : State) (todayIdx : Nat) : Nat :=
  (state.routines.filter (fun r =>
    r.concluded &&
    (match r.days with
     | none => false
     | some ds => ds.contains (toString todayIdx)))).length

/-- The text `renderSummary()` writes to `nextRoutineEl`. -/
def nextRoutine (localeCompare : String → String → Int) (state : State) : String :=
  match sort (fun a b => localeCompare (orElse a.time "") (orElse b.time ""))
      (state.routines.filter (fun r => orElse r.time "" != "")) with
  | upcoming :: _ => upcoming.title ++ " às " ++ orElse upcoming.time ""
  | [] => "—"

/-- The three values `renderSummary()` displays. -/
def renderSummary (localeCompare : String → String → Int) (state : State) (todayIdx : Nat) :
    Nat × Nat × String :=
  (totalRoutines state, completedToday state todayIdx, nextRoutine localeCompare state)

/-- The weekday labels of `renderReports()`. -/
def dayLabels : List String := ["Dom", "Seg", "Ter", "Qua", "Qui", "Sex", "Sáb"]

/-- What `renderReports()` displays: for each weekday its label and the number
of routines whose `days` holds its index, and the eight latest activities, the
latest first. -/
def renderReports (state : State) : List (String × Nat) × List Activity :=
  (dayLabels.enum.map (fun e =>
      (e.2, (state.routines.filter (fun r =>
        match r.days with
        | none => false
        | some ds => ds.contains (toString e.1))).length)),
   state.activities.reverse.take 8)

/-! ## Storage -/

/-- A JSON value as `JSON.parse` returns it. -/
inductive JVal where
  | null
  | bool (b : Bool)
  | num (x : ℚ)
  | str (s : String)
  | arr (items : List JVal)
  | obj (fields : List (String × JVal))

/-- The truthiness `||` tests: `null`, `false`, `0` and `""` are falsy, every
array and object is truthy. -/
def JVal.truthy : JVal → Bool
  | .null => false
  | .bool b => b
  | .num x => x != 0
  | .str s => s != ""
  | .arr _ => true
  | .obj _ => true

/-- The literal `{ routines: [], activities: [] }`. -/
def freshRecord : JVal :=
  .obj [("routines", .arr []), ("activities", .arr [])]

/-- The content of the storage key as `JSON.parse` sees it: no item, a text
that is not JSON, or a JSON text with its value. -/
inductive StorageItem where
  | absent
  | malformed
  | json (value : JVal)

/-- `JSON.parse(localStorage.getItem(STORAGE_KEY))`: `getItem` yields `null` for
an absent key, which `JSON.parse` reads as the text `null`; a text that is not
JSON raises a `SyntaxError`. -/
def jsonParseItem : StorageItem → Except String JVal
  | .absent => .ok .null
  | .malformed => .error "SyntaxError"
  | .json value => .ok value

/-- `loadData()`: the parsed item, or the fresh record when it is falsy or
when parsing raised. -/
def loadData (item : StorageItem) : Except String JVal :=
  match jsonParseItem item with
  | .ok value => .ok (if value.truthy then value else freshRecord)
  | .error _ => .ok freshRecord

/-- The shape the specification expects of a persisted record: an object whose
`routines` and `activities` are both arrays. `loadData` does not test it. -/
def expectedShape : JVal → Bool
  | .obj fields =>
    (match fields.lookup "routines" with
     | some (.arr _) => true
     | _ => false) &&
    (match fields.lookup "activities" with
     | some (.arr _) => true
     | _ => false)
  | _ => false

/-! ## Concrete records -/

/-- A routine as an imported file may hold it: no description, time, repeat,
days or comments. -/
def bareRoutine : Routine :=
  { id := "r1", title := "Walk", description := none, time := none, repeat_ := none,
    days := none, concluded := true, comments := none }

/-- A state holding `bareRoutine` only. -/
def bareState : State := { routines := [bareRoutine], activities := [] }

/-- A submission of the form that edits the routine `r1`. -/
def editForm : Form :=
  { routineId := "r1", title := "Run", description := " slow ", time := "",
    repeat_ := "none", days := [] }

/-- A daily routine without a `days` field. -/
def dailyNoDays : Routine :=
  { id := "r2", title := "Stretch", description := none, time := some "07:30",
    repeat_ := some "daily", days := none, concluded := false, comments := none }

/-- A routine without a time. -/
def untimed : Routine :=
  { id := "r3", title := "Read", description := some "", time := none,
    repeat_ := some "none", days := some [], concluded := false, comments := some [] }

/-- A routine at half past seven. -/
def morning : Routine :=
  { id := "r4", title := "Run", description := some "", time := some "07:30",
    repeat_ := some "none", days := some [], concluded := false, comments := some [] }

/-- A routine at the last minute of the day. -/
def lastMinute : Routine :=
  { id := "r5", title := "Sleep", description := some "", time := some "23:59",
    repeat_ := some "none", days := some [], concluded := false, comments := some [] }

/-- A routine titled `a` and described `b`. -/
def splitText : Routine :=
  { id := "r6", title := "a", description := some "b", time := none,
    repeat_ := some "none", days := some [], concluded := false, comments := some [] }

/-- The form of the routine `Walk`: 07:30, daily, Monday to Friday. -/
def walkForm : Form :=
  { routineId := "", title := "Walk", description := "", time := "07:30", repeat_ := "daily",
    days := ["1", "2", "3", "4", "5"] }

/-- The state after the routine `Walk` was created in the empty state. -/
def walkState : State := saveRoutineFromForm ⟨[], []⟩ walkForm "w1" 0

/-- A state with one logged activity. -/
def loggedState : State := { routines := [morning], activities := [⟨5, "Criou rotina: Run"⟩] }

/-! ## Lemmas on `findFirst` and list updates -/

theorem findFirst_some {p : Routine → Bool} {l : List Routine} {i : Nat} {r : Routine}
    (h : findFirst p l = some (i, r)) :
    l[i]? = some r ∧ p r = true ∧ ∀ j x, j < i → l[j]? = some x → p x = false := by
  induction l generalizing i with
  | nil => simp [findFirst] at h
  | cons a t ih =>
    unfold findFirst at h
    by_cases hp : p a = true
    · simp only [hp, if_true, Option.some.injEq, Prod.mk.injEq] at h
      obtain ⟨rfl, rfl⟩ := h
      exact ⟨by simp, hp, fun j x hj => absurd hj (Nat.not_lt_zero j)⟩
    · simp only [hp, Bool.false_eq_true, if_false, Option.map_eq_some', Prod.mk.injEq] at h
      obtain ⟨⟨k, y⟩, hk, rfl, rfl⟩ := h
      obtain ⟨h1, h2, h3⟩ := ih hk
      refine ⟨by simpa using h1, h2, ?_⟩
      intro j x hj hx
      cases j with
      | zero =>
        simp only [List.getElem?_cons_zero, Option.some.injEq] at hx
        subst hx
        simpa using hp
      | succ j =>
        simp only [List.getElem?_cons_succ] at hx
        exact h3 j x (by omega) hx

theorem findFirst_eq_none {p : Routine → Bool} {l : List Routine} :
    findFirst p l = none ↔ ∀ r ∈ l, p r = false := by
  induction l with
  | nil => simp [findFirst]
  | cons a t ih =>
    unfold findFirst
    by_cases hp : p a = true
    · simp [hp]
    · simp only [hp, Bool.false_eq_true, if_false, Option.map_eq_none', ih]
      simp at hp
      simp [hp]

theorem findFirst_of_mem {p : Routine → Bool} {l : List Routine}
    (h : ∃ r ∈ l, p r = true) : ∃ i r, findFirst p l = some (i, r) := by
  cases hf : findFirst p l with
  | none =>
    obtain ⟨r, hr, hpr⟩ := h
    have := findFirst_eq_none.1 hf r hr
    simp [this] at hpr
  | some e => exact ⟨e.1, e.2, rfl⟩

theorem getElem?_set_other {l : List Routine} {i j : Nat} (x : Routine) (h : j ≠ i) :
    (l.set i x)[j]? = l[j]? := by
  rw [List.getElem?_set_ne (Ne.symm h)]

theorem getElem?_set_self {l : List Routine} {i : Nat} {y : Routine} (x : Routine)
    (h : l[i]? = some y) : (l.set i x)[i]? = some x := by
  have hi : i < l.length := by
    by_contra hc
    rw [List.getElem?_eq_none (by omega)] at h
    cases h
  simp [List.getElem?_set_self, hi]

/-! ## Storage: `loadData` -/

/-- The values `||` replaces: exactly `null`, `false`, `0` and `""`. -/
theorem truthy_eq_false_iff (v : JVal) :
    v.truthy = false ↔ v = .null ∨ v = .bool false ∨ v = .num 0 ∨ v = .str "" := by
  cases v <;> simp [JVal.truthy]

/-- C7, as stated, fails: the stored text `{"foo":1}` is valid JSON without the
expected shape, and `loadData` returns the parsed object, not the fresh record. -/
theorem loadData_shapeless_returned :
    expectedShape (.obj [("foo", .num 1)]) = false ∧
    loadData (.json (.obj [("foo", .num 1)])) = .ok (.obj [("foo", .num 1)]) ∧
    loadData (.json (.obj [("foo", .num 1)])) ≠ .ok freshRecord := by
  refine ⟨by simp [expectedShape, List.lookup], by simp [loadData, jsonParseItem, JVal.truthy], ?_⟩
  simp [loadData, jsonParseItem, JVal.truthy, freshRecord]

/-- C7, amended: `loadData` never raises; it returns the fresh record when the
item is absent, is not JSON, or parses to a falsy value (`null`, `false`, `0`,
`""`); every other parsed value is returned as it is, whatever its shape. -/
theorem loadData_fallback :
    (∀ item, ∃ v, loadData item = .ok v) ∧
    loadData .absent = .ok freshRecord ∧
    loadData .malformed = .ok freshRecord ∧
    (∀ v, (v = .null ∨ v = .bool false ∨ v = .num 0 ∨ v = .str "") →
      loadData (.json v) = .ok freshRecord) ∧
    (∀ v, ¬ (v = .null ∨ v = .bool false ∨ v = .num 0 ∨ v = .str "") →
      loadData (.json v) = .ok v) := by
  refine ⟨?_, rfl, rfl, ?_, ?_⟩
  · intro item
    cases item with
    | absent => exact ⟨_, rfl⟩
    | malformed => exact ⟨_, rfl⟩
    | json v => exact ⟨_, rfl⟩
  · intro v hv
    have := (truthy_eq_false_iff v).2 hv
    simp [loadData, jsonParseItem, this]
  · intro v hv
    have : v.truthy = true := by
      cases h : v.truthy with
      | true => rfl
      | false => exact absurd ((truthy_eq_false_iff v).1 h) hv
    simp [loadData, jsonParseItem, this]

/-- The values `5` and `[]` of the claim's examples are returned as they are. -/
theorem loadData_examples :
    loadData (.json (.num 5)) = .ok (.num 5) ∧ loadData (.json (.arr [])) = .ok (.arr []) := by
  constructor <;> simp [loadData, jsonParseItem, JVal.truthy]

/-! ## Editing a routine: `saveRoutineFromForm` -/

/-- C1, as stated, fails: editing a routine whose `comments` field is absent
stores the empty list in it, and the description stored is the trimmed form
value, not the form value. -/
theorem saveRoutineFromForm_absent_comments :
    trim editForm.title ≠ "" ∧
    (∃ r ∈ bareState.routines, r.id = formId editForm "u") ∧
    bareState.routines.map (fun r => r.comments) = [none] ∧
    (saveRoutineFromForm bareState editForm "u" 0).routines.map (fun r => r.comments)
      = [some []] ∧
    editForm.description = " slow " ∧
    (saveRoutineFromForm bareState editForm "u" 0).routines.map (fun r => r.description)
      = [some "slow"] := by
  decide

/-- C1, amended: when the trimmed title is non-empty and the id of the
submission (`routineId.value || uid()`) is the id of a routine of the state,
the first routine with that id keeps its position, id and `concluded`, keeps
its `comments` (an absent `comments` becoming the empty list), takes the
trimmed title, the trimmed description, the time (absent when the input is
empty), the repeat and the days of the form, and every other routine and the
number of routines are unchanged. -/
theorem saveRoutineFromForm_edit (state : State) (form : Form) (uid : String) (now : Nat)
    (htitle : trim form.title ≠ "")
    (hid : ∃ r ∈ state.routines, r.id = formId form uid) :
    ∃ (idx : Nat) (old : Routine),
      state.routines[idx]? = some old ∧ old.id = formId form uid ∧
      (∀ (j : Nat) (x : Routine), j < idx → state.routines[j]? = some x →
        x.id ≠ formId form uid) ∧
      (saveRoutineFromForm state form uid now).routines.length = state.routines.length ∧
      (saveRoutineFromForm state form uid now).routines[idx]? = some
        { id := old.id
          title := trim form.title
          description := some (trim form.description)
          time := if form.time = "" then none else some form.time
          repeat_ := some form.repeat_
          days := some form.days
          concluded := old.concluded
          comments := some (old.comments.getD []) } ∧
      ∀ j, j ≠ idx →
        (saveRoutineFromForm state form uid now).routines[j]? = state.routines[j]? := by
  have hex : ∃ r ∈ state.routines, (fun r : Routine => r.id == formId form uid) r = true := by
    obtain ⟨r, hr, he⟩ := hid
    exact ⟨r, hr, by simp [he]⟩
  obtain ⟨idx, old, hf⟩ := findFirst_of_mem hex
  obtain ⟨h1, h2, h3⟩ := findFirst_some hf
  have hold : old.id = formId form uid := by simpa using h2
  have hrun : (saveRoutineFromForm state form uid now).routines =
      state.routines.set idx
        { formData form uid with concluded := old.concluded
                                 comments := some (old.comments.getD []) } := by
    simp only [saveRoutineFromForm]
    rw [if_neg (by simpa [formData] using htitle)]
    have hf2 : findFirst (fun r => r.id == (formData form uid).id) state.routines
        = some (idx, old) := hf
    rw [hf2]
  refine ⟨idx, old, h1, hold, ?_, ?_, ?_, ?_⟩
  · intro j x hj hx
    have := h3 j x hj hx
    simpa using this
  · rw [hrun, List.length_set]
  · rw [hrun, getElem?_set_self _ h1]
    simp [formData, hold]
  · intro j hj
    rw [hrun, getElem?_set_other _ hj]

/-- An instance of `saveRoutineFromForm_edit`: the submission `editForm` edits
the only routine of `bareState`. -/
theorem saveRoutineFromForm_edit_witness :
    trim editForm.title ≠ "" ∧
    (∃ r ∈ bareState.routines, r.id = formId editForm "u") ∧
    ∃ (idx : Nat) (old : Routine),
      bareState.routines[idx]? = some old ∧ old.id = formId editForm "u" ∧
      (∀ (j : Nat) (x : Routine), j < idx → bareState.routines[j]? = some x →
        x.id ≠ formId editForm "u") ∧
      (saveRoutineFromForm bareState editForm "u" 0).routines.length
        = bareState.routines.length ∧
      (saveRoutineFromForm bareState editForm "u" 0).routines[idx]? = some
        { id := old.id
          title := trim editForm.title
          description := some (trim editForm.description)
          time := if editForm.time = "" then none else some editForm.time
          repeat_ := some editForm.repeat_
          days := some editForm.days
          concluded := old.concluded
          comments := some (old.comments.getD []) } ∧
      ∀ j, j ≠ idx →
        (saveRoutineFromForm bareState editForm "u" 0).routines[j]? = bareState.routines[j]? :=
  ⟨by decide, by decide,
    saveRoutineFromForm_edit bareState editForm "u" 0 (by decide) (by decide)⟩

/-! ## The rendered list: `renderList` -/

theorem mem_sort {cmp : Routine → Routine → Int} {l : List Routine} {r : Routine} :
    r ∈ sort cmp l ↔ r ∈ l := by
  unfold sort
  exact List.mem_insertionSort _

theorem includes_empty (s : String) : includes s "" = true := by
  unfold includes
  rw [List.any_eq_true]
  exact ⟨[], by simp, by simp⟩

/-- C2: the `today` filter leaves out a daily routine whose `days` field is
absent, whatever the weekday, the search text and the sort kind, while the
periodic check counts the same routine as allowed on every weekday. -/
theorem renderList_today_daily_without_days (toLowerCase : String → String)
    (localeCompare : String → String → Int) (searchInput sortBy : String) (dayIdx : Nat)
    (d : String) :
    dailyNoDays.repeat_ = some "daily" ∧ dailyNoDays.days = none ∧
    renderList toLowerCase localeCompare ⟨[dailyNoDays], []⟩ searchInput "today" sortBy dayIdx
      = [] ∧
    allowed dailyNoDays d = true := by
  refine ⟨rfl, rfl, ?_, by simp [allowed, dailyNoDays]⟩
  have hfil : ([dailyNoDays].filter (fun r =>
      match r.days with
      | none => false
      | some ds => ds.contains (toString dayIdx) || r.repeat_ == some "daily")) = [] := by
    simp [dailyNoDays]
  simp only [renderList, if_true, hfil, List.filter_nil]
  split_ifs <;> rfl

/-- The routines `renderList` shows with the filter `all`: those whose lower-cased
`title + " " + description` includes the trimmed, lower-cased search text. -/
theorem mem_renderList_all (toLowerCase : String → String)
    (localeCompare : String → String → Int) (state : State)
    (searchInput sortBy : String) (dayIdx : Nat) (r : Routine) :
    r ∈ renderList toLowerCase localeCompare state searchInput "all" sortBy dayIdx ↔
      r ∈ state.routines ∧
      includes (toLowerCase (r.title ++ " " ++ orElse r.description ""))
        (toLowerCase (trim searchInput)) = true := by
  have h1 : ("all" = "today") = False := by decide
  have h2 : ("all" = "completed") = False := by decide
  have h3 : ("all" = "pending") = False := by decide
  simp only [renderList, h1, h2, h3, if_false]
  split_ifs with hs hq hs2 hq hq <;> rw [mem_sort] <;>
    simp [List.mem_filter, includes_empty, hq]

/-- C5, as stated, fails: the search text `ab` is a substring of the title `a`
followed by the description `b`, yet the routine is not listed, because the
code joins title and description with a blank. -/
theorem renderList_search_joins_with_blank :
    splitText ∈ (State.mk [splitText] []).routines ∧
    includes (toLowerCaseAscii (splitText.title ++ orElse splitText.description ""))
      (toLowerCaseAscii "ab") = true ∧
    renderList toLowerCaseAscii codeUnitCompare ⟨[splitText], []⟩ "ab" "all" "name" 0 = [] := by
  decide

/-- The search text is trimmed before it is matched: ` run` (with a leading
blank) finds the routine titled `Run`, although no blank precedes the title. -/
theorem renderList_search_trims :
    includes (toLowerCaseAscii (morning.title ++ orElse morning.description ""))
      (toLowerCaseAscii " run") = false ∧
    renderList toLowerCaseAscii codeUnitCompare ⟨[morning], []⟩ " run" "all" "name" 0
      = [morning] := by
  decide

/-- C5, amended: with the filter `all`, a routine is listed if and only if the
trimmed, lower-cased search text is a substring of the lower-cased
`title + " " + description` (an absent description taken as empty); when the
search text trims to the empty text, every routine is listed. The lower-casing
is assumed to map the empty text to itself. -/
theorem renderList_search (toLowerCase : String → String)
    (localeCompare : String → String → Int) (state : State)
    (searchInput sortBy : String) (dayIdx : Nat)
    (hlower : toLowerCase "" = "") :
    (∀ r, r ∈ renderList toLowerCase localeCompare state searchInput "all" sortBy dayIdx ↔
      r ∈ state.routines ∧
      includes (toLowerCase (r.title ++ " " ++ orElse r.description ""))
        (toLowerCase (trim searchInput)) = true) ∧
    (trim searchInput = "" →
      ∀ r, r ∈ renderList toLowerCase localeCompare state searchInput "all" sortBy dayIdx ↔
        r ∈ state.routines) := by
  refine ⟨fun r => mem_renderList_all _ _ _ _ _ _ r, ?_⟩
  intro hq r
  rw [mem_renderList_all, hq, hlower, includes_empty]
  simp

/-- Two instances of `renderList_search`: the search text `RUN ` selects the
routine titled `Run` alone, and a search text of blanks selects every routine. -/
theorem renderList_search_witness :
    toLowerCaseAscii "" = "" ∧
    renderList toLowerCaseAscii codeUnitCompare ⟨[untimed, morning], []⟩ "RUN " "all" "name" 0
      = [morning] ∧
    ((∀ r, r ∈ renderList toLowerCaseAscii codeUnitCompare ⟨[untimed, morning], []⟩
          "RUN " "all" "name" 0 ↔
        r ∈ (State.mk [untimed, morning] []).routines ∧
        includes (toLowerCaseAscii (r.title ++ " " ++ orElse r.description ""))
          (toLowerCaseAscii (trim "RUN ")) = true) ∧
      (trim "RUN " = "" →
        ∀ r, r ∈ renderList toLowerCaseAscii codeUnitCompare ⟨[untimed, morning], []⟩
            "RUN " "all" "name" 0 ↔
          r ∈ (State.mk [untimed, morning] []).routines)) ∧
    trim "  " = "" ∧
    ((∀ r, r ∈ renderList toLowerCaseAscii codeUnitCompare ⟨[untimed, morning], []⟩
          "  " "all" "name" 0 ↔
        r ∈ (State.mk [untimed, morning] []).routines ∧
        includes (toLowerCaseAscii (r.title ++ " " ++ orElse r.description ""))
          (toLowerCaseAscii (trim "  ")) = true) ∧
      (trim "  " = "" →
        ∀ r, r ∈ renderList toLowerCaseAscii codeUnitCompare ⟨[untimed, morning], []⟩
            "  " "all" "name" 0 ↔
          r ∈ (State.mk [untimed, morning] []).routines)) :=
  ⟨by decide, by decide,
    renderList_search toLowerCaseAscii codeUnitCompare ⟨[untimed, morning], []⟩
      "RUN " "name" 0 (by decide),
    by decide,
    renderList_search toLowerCaseAscii codeUnitCompare ⟨[untimed, morning], []⟩
      "  " "name" 0 (by decide)⟩

/-! ## Sorting by time -/

theorem compareChars_total (a b : List Char) :
    compareChars a b ≤ 0 ∨ compareChars b a ≤ 0 := by
  induction a generalizing b with
  | nil => cases b <;> simp [compareChars]
  | cons x xs ih =>
    cases b with
    | nil => simp [compareChars]
    | cons y ys =>
      simp only [compareChars]
      split_ifs <;> first | omega | exact ih ys

theorem compareChars_trans (a b c : List Char)
    (hab : compareChars a b ≤ 0) (hbc : compareChars b c ≤ 0) : compareChars a c ≤ 0 := by
  induction a generalizing b c with
  | nil => cases c <;> simp [compareChars]
  | cons x xs ih =>
    cases b with
    | nil => simp [compareChars] at hab
    | cons y ys =>
      cases c with
      | nil => simp [compareChars] at hbc
      | cons z zs =>
        simp only [compareChars] at hab hbc ⊢
        split_ifs at hab hbc ⊢ <;> first | omega | exact ih ys zs hab hbc

theorem compareChars_pos_nil (a : List Char) (h : a ≠ []) : 0 < compareChars a [] := by
  cases a with
  | nil => exact absurd rfl h
  | cons x xs => simp [compareChars]

theorem codeUnitCompare_pos_empty (s : String) (h : s ≠ "") : 0 < codeUnitCompare s "" := by
  unfold codeUnitCompare
  apply compareChars_pos_nil
  intro hl
  apply h
  cases s
  simp_all

/-- The list `sort` returns is ordered by the comparator when the comparator is
total and transitive. -/
theorem sort_pairwise (cmp : Routine → Routine → Int)
    (htotal : ∀ a b, cmp a b ≤ 0 ∨ cmp b a ≤ 0)
    (htrans : ∀ a b c, cmp a b ≤ 0 → cmp b c ≤ 0 → cmp a c ≤ 0) (l : List Routine) :
    (sort cmp l).Pairwise (fun a b => cmp a b ≤ 0) := by
  haveI : IsTotal Routine (fun a b => cmp a b ≤ 0) := ⟨htotal⟩
  haveI : IsTrans Routine (fun a b => cmp a b ≤ 0) := ⟨htrans⟩
  exact List.sorted_insertionSort (fun a b => cmp a b ≤ 0) l

/-- Every routine `renderList` shows is a routine of the state. -/
theorem renderList_subset (toLowerCase : String → String)
    (localeCompare : String → String → Int) (state : State)
    (searchInput filterBy sortBy : String) (dayIdx : Nat) (r : Routine)
    (h : r ∈ renderList toLowerCase localeCompare state searchInput filterBy sortBy dayIdx) :
    r ∈ state.routines := by
  simp only [renderList] at h
  split_ifs at h <;> rw [mem_sort] at h <;>
    (try simp only [List.mem_filter] at h) <;> first | exact h | exact h.1 | exact h.1.1

/-- C3, as stated, fails: with the sort kind `time` the routine without a time
comes first, before the routine at `07:30`, in whichever order the state
holds them. -/
theorem renderList_time_untimed_first :
    untimed.time = none ∧ morning.time = some "07:30" ∧
    renderList toLowerCaseAscii codeUnitCompare ⟨[morning, untimed], []⟩ "" "all" "time" 0
      = [untimed, morning] ∧
    renderList toLowerCaseAscii codeUnitCompare ⟨[untimed, morning], []⟩ "" "all" "time" 0
      = [untimed, morning] := by
  decide

/-- C3, amended: with the sort kind `time` the list is ordered by `time`
ascending, an absent time counting as the empty text, so every routine without
a time is placed before all routines that have one: no timed routine precedes
an untimed one. The comparison is assumed total and transitive and to rank
every time of the state after the empty text. -/
theorem renderList_time_sorted (toLowerCase : String → String)
    (localeCompare : String → String → Int) (state : State)
    (searchInput filterBy : String) (dayIdx : Nat)
    (htotal : ∀ a b, localeCompare a b ≤ 0 ∨ localeCompare b a ≤ 0)
    (htrans : ∀ a b c, localeCompare a b ≤ 0 → localeCompare b c ≤ 0 → localeCompare a c ≤ 0)
    (hempty : ∀ r ∈ state.routines, orElse r.time "" ≠ "" →
      0 < localeCompare (orElse r.time "") "") :
    (renderList toLowerCase localeCompare state searchInput filterBy "time" dayIdx).Pairwise
      (fun a b => localeCompare (orElse a.time "") (orElse b.time "") ≤ 0) ∧
    (renderList toLowerCase localeCompare state searchInput filterBy "time" dayIdx).Pairwise
      (fun a b => orElse b.time "" = "" → orElse a.time "" = "") := by
  have hsorted : (renderList toLowerCase localeCompare state searchInput filterBy "time"
      dayIdx).Pairwise (fun a b => localeCompare (orElse a.time "") (orElse b.time "") ≤ 0) := by
    have h1 : ("time" = "name") = False := by decide
    simp only [renderList, h1, if_false, if_true]
    exact sort_pairwise (fun a b => localeCompare (orElse a.time "") (orElse b.time ""))
      (fun a b => htotal _ _) (fun a b c => htrans _ _ _) _
  refine ⟨hsorted, ?_⟩
  refine List.Pairwise.imp_of_mem ?_ hsorted
  intro a b ha _ hab hb
  by_contra hne
  have hpos := hempty a (renderList_subset _ _ _ _ _ _ _ a ha) hne
  rw [hb] at hab
  omega

/-- An instance of `renderList_time_sorted` with the code unit comparison. -/
theorem renderList_time_sorted_witness :
    (renderList toLowerCaseAscii codeUnitCompare ⟨[morning, untimed, lastMinute], []⟩
        "" "all" "time" 0).Pairwise
      (fun a b => codeUnitCompare (orElse a.time "") (orElse b.time "") ≤ 0) ∧
    (renderList toLowerCaseAscii codeUnitCompare ⟨[morning, untimed, lastMinute], []⟩
        "" "all" "time" 0).Pairwise
      (fun a b => orElse b.time "" = "" → orElse a.time "" = "") :=
  renderList_time_sorted toLowerCaseAscii codeUnitCompare ⟨[morning, untimed, lastMinute], []⟩
    "" "all" 0 (fun _ _ => compareChars_total _ _) (fun _ _ _ => compareChars_trans _ _ _)
    (fun _ _ h => codeUnitCompare_pos_empty _ h)

/-- C4: with the sort kind `next` a routine without a time that the state holds
before a routine at `23:59` stays before it: the default `23:59` ties with that
time and the stable sort keeps the input order. -/
theorem renderList_next_ties_with_last_minute :
    untimed.time = none ∧ lastMinute.time = some "23:59" ∧
    renderList toLowerCaseAscii codeUnitCompare ⟨[untimed, lastMinute], []⟩ "" "all" "next" 0
      = [untimed, lastMinute] := by
  decide

/-! ## The periodic check -/

/-- The `allowed` flag in words: the routine repeats daily, or its days hold the
weekday digit, or its days are absent or empty. -/
theorem allowed_iff (r : Routine) (d : String) :
    allowed r d = true ↔
      r.repeat_ = some "daily" ∨ (∃ ds, r.days = some ds ∧ d ∈ ds) ∨
        r.days = none ∨ r.days = some [] := by
  unfold allowed
  cases hd : r.days with
  | none => simp
  | some ds => cases ds <;> simp

theorem periodicCheck_fold (hhmm d : String) (now : Nat → Nat) (l : List Routine) (n : Nat)
    (st : State) :
    ∃ appended : List Activity,
      (l.enumFrom n).foldl
        (fun st e =>
          if e.2.time = some hhmm then
            if allowed e.2 d then
              { st with activities := st.activities ++ [⟨now e.1, "Notificação: " ++ e.2.title⟩] }
            else st
          else st)
        st = { routines := st.routines, activities := st.activities ++ appended } ∧
      appended.map (fun a => a.text) =
        (l.filter (fun r => decide (r.time = some hhmm) && allowed r d)).map
          (fun r => "Notificação: " ++ r.title) := by
  induction l generalizing n st with
  | nil => exact ⟨[], by simp, by simp⟩
  | cons r t ih =>
    simp only [List.enumFrom, List.foldl_cons]
    by_cases ht : r.time = some hhmm
    · by_cases ha : allowed r d = true
      · obtain ⟨app, h1, h2⟩ := ih (n + 1)
          { st with activities := st.activities ++ [⟨now n, "Notificação: " ++ r.title⟩] }
        refine ⟨⟨now n, "Notificação: " ++ r.title⟩ :: app, ?_, ?_⟩
        · simp only [ht, ha, if_true]
          rw [h1]
          simp
        · simp [ht, ha, h2]
      · obtain ⟨app, h1, h2⟩ := ih (n + 1) st
        refine ⟨app, ?_, ?_⟩
        · simp only [ht, ha, if_true, Bool.false_eq_true, if_false]
          exact h1
        · simp [ht, ha, h2]
    · obtain ⟨app, h1, h2⟩ := ih (n + 1) st
      refine ⟨app, ?_, ?_⟩
      · simp only [ht, if_false]
        exact h1
      · simp [ht, h2]

/-- C6: one run of the periodic check leaves the routines unchanged and appends
to the activities exactly one entry for each routine whose time is `hhmm` and
which is allowed (daily, or its days hold `d`, or its days are absent or
empty), in the order of the routines, and nothing else. -/
theorem periodicCheck_appends (state : State) (hhmm d : String) (now : Nat → Nat) :
    (periodicCheck state hhmm d now).routines = state.routines ∧
    (∃ appended : List Activity,
      (periodicCheck state hhmm d now).activities = state.activities ++ appended ∧
      appended.length =
        (state.routines.filter (fun r => decide (r.time = some hhmm) && allowed r d)).length ∧
      appended.map (fun a => a.text) =
        (state.routines.filter (fun r => decide (r.time = some hhmm) && allowed r d)).map
          (fun r => "Notificação: " ++ r.title)) ∧
    ∀ r : Routine, allowed r d = true ↔
      r.repeat_ = some "daily" ∨ (∃ ds, r.days = some ds ∧ d ∈ ds) ∨
        r.days = none ∨ r.days = some [] := by
  obtain ⟨app, h1, h2⟩ := periodicCheck_fold hhmm d now state.routines 0 state
  have hrun : periodicCheck state hhmm d now =
      { routines := state.routines, activities := state.activities ++ app } := h1
  refine ⟨by rw [hrun], ⟨app, by rw [hrun], ?_, h2⟩, fun r => allowed_iff r d⟩
  have := congrArg List.length h2
  simpa using this

/-- The scenario of the poll at `07:30` on a Monday for the routine `Walk`:
exactly one entry is appended. -/
theorem periodicCheck_walk_monday :
    (periodicCheck walkState "07:30" "1" (fun _ => 7)).activities
      = walkState.activities ++ [⟨7, "Notificação: Walk"⟩] ∧
    (periodicCheck walkState "07:31" "1" (fun _ => 7)).activities = walkState.activities := by
  decide

/-! ## The activity log -/

/-- C8, as stated, fails: importing the file `{"routines":[],"activities":[]}`
replaces the state, and the activity logged before is gone. -/
theorem handleImportFile_drops_activities :
    loggedState.activities = [⟨5, "Criou rotina: Run"⟩] ∧
    (handleImportFile loggedState (some (.record ⟨[], []⟩))).activities = [] ∧
    ¬ (loggedState.activities <+:
        (handleImportFile loggedState (some (.record ⟨[], []⟩))).activities) := by
  refine ⟨rfl, rfl, ?_⟩
  simp [handleImportFile, loggedState]

/-- C8, amended: for every mutating operation other than import (create, edit,
toggle, delete, add comment, remove comment, bulk complete, clear all, a run of
the periodic check) the activities before are an initial segment of the
activities after; a confirmed `clear all` empties the routines and appends one
entry recording it; a successful import replaces the whole state, activities
included, by the imported record. -/
theorem activities_append_only :
    (∀ (state : State) (op : Operation),
      state.activities <+: (Operation.run state op).activities) ∧
    (∀ (state : State) (now : Nat),
      (clearAll state true now).routines = [] ∧
      (clearAll state true now).activities =
        state.activities ++ [⟨now, "Apagou todas as rotinas"⟩]) ∧
    (∀ (state imported : State),
      handleImportFile state (some (.record imported)) = imported) := by
  refine ⟨?_, fun state now => ⟨rfl, rfl⟩, fun state imported => rfl⟩
  intro state op
  cases op with
  | submitForm form uid now =>
    simp only [Operation.run, saveRoutineFromForm]
    split_ifs
    · exact ⟨[], by simp⟩
    · split
      · exact ⟨_, rfl⟩
      · exact ⟨_, rfl⟩
  | toggle id now =>
    simp only [Operation.run, toggleComplete]
    split
    · exact ⟨[], by simp⟩
    · exact ⟨_, rfl⟩
  | delete id confirmed now =>
    simp only [Operation.run, deleteRoutine]
    split
    · exact ⟨[], by simp⟩
    · split_ifs
      · exact ⟨[], by simp⟩
      · exact ⟨_, rfl⟩
  | comment id input uid nowC nowA =>
    simp only [Operation.run, addComment]
    split
    · exact ⟨[], by simp⟩
    · split_ifs
      · exact ⟨[], by simp⟩
      · exact ⟨_, rfl⟩
  | uncomment id cid now =>
    simp only [Operation.run, removeComment]
    split
    · exact ⟨[], by simp⟩
    · split_ifs
      · exact ⟨_, rfl⟩
      · exact ⟨[], by simp⟩
  | bulk now => exact ⟨_, rfl⟩
  | clear confirmed now =>
    simp only [Operation.run, clearAll]
    split_ifs
    · exact ⟨[], by simp⟩
    · exact ⟨_, rfl⟩
  | poll hhmm d now =>
    obtain ⟨app, h1, _⟩ := periodicCheck_fold hhmm d now state.routines 0 state
    have hrun : periodicCheck state hhmm d now =
        { routines := state.routines, activities := state.activities ++ app } := h1
    simp only [Operation.run, hrun]
    exact ⟨app, rfl⟩

/-! ## The summary counts -/

theorem findFirst_of_first {p : Routine → Bool} {l : List Routine} {i : Nat} {r : Routine}
    (h1 : l[i]? = some r) (h2 : p r = true)
    (h3 : ∀ (j : Nat) (x : Routine), j < i → l[j]? = some x → p x = false) :
    findFirst p l = some (i, r) := by
  induction l generalizing i with
  | nil => simp at h1
  | cons a t ih =>
    unfold findFirst
    cases i with
    | zero =>
      simp only [List.getElem?_cons_zero, Option.some.injEq] at h1
      subst h1
      simp [h2]
    | succ k =>
      have ha : p a = false := h3 0 a (by omega) (by simp)
      simp only [List.getElem?_cons_succ] at h1
      have := ih h1 (fun j x hj hx => h3 (j + 1) x (by omega) (by simpa using hx))
      simp [ha, this]

theorem length_filter_set {p : Routine → Bool} {l : List Routine} {i : Nat}
    {old new : Routine} (h : l[i]? = some old) (hold : p old = false) (hnew : p new = true) :
    ((l.set i new).filter p).length = (l.filter p).length + 1 := by
  induction l generalizing i with
  | nil => simp at h
  | cons a t ih =>
    cases i with
    | zero =>
      simp only [List.getElem?_cons_zero, Option.some.injEq] at h
      subst h
      simp [List.filter, hold, hnew]
    | succ k =>
      simp only [List.getElem?_cons_succ] at h
      have := ih h
      by_cases ha : p a = true
      · simp [List.filter, ha, this]
      · simp only [Bool.not_eq_true] at ha
        simp [List.filter, ha, this]

/-- C9: when the first routine with the id is not concluded and its days hold
today's index, `toggleComplete` raises the completed-today count by one and
leaves the total unchanged; for the routine `Walk` (07:30, daily, Monday to
Friday) alone on a Monday the total is 1 and the completed-today count is 0
before and 1 after. -/
theorem toggleComplete_completedToday :
    (∀ (state : State) (id : String) (now todayIdx idx : Nat) (r : Routine),
      state.routines[idx]? = some r → r.id = id →
      (∀ (j : Nat) (x : Routine), j < idx → state.routines[j]? = some x → x.id ≠ id) →
      r.concluded = false →
      (∃ ds, r.days = some ds ∧ toString todayIdx ∈ ds) →
      completedToday (toggleComplete state id now) todayIdx
        = completedToday state todayIdx + 1 ∧
      totalRoutines (toggleComplete state id now) = totalRoutines state) ∧
    (walkState.routines.map (fun r => (r.title, r.time, r.repeat_, r.days))
        = [("Walk", some "07:30", some "daily", some ["1", "2", "3", "4", "5"])] ∧
      totalRoutines walkState = 1 ∧ completedToday walkState 1 = 0 ∧
      totalRoutines (toggleComplete walkState "w1" 9) = 1 ∧
      completedToday (toggleComplete walkState "w1" 9) 1 = 1) := by
  refine ⟨?_, by decide⟩
  intro state id now todayIdx idx r hidx hid hfirst hnc hday
  have hf : findFirst (fun x => x.id == id) state.routines = some (idx, r) :=
    findFirst_of_first hidx (by simp [hid])
      (fun j x hj hx => by simpa using hfirst j x hj hx)
  have hrun : (toggleComplete state id now).routines =
      state.routines.set idx { r with concluded := !r.concluded } := by
    simp only [toggleComplete, hf]
  obtain ⟨ds, hds, hmem⟩ := hday
  constructor
  · unfold completedToday
    rw [hrun]
    apply length_filter_set hidx
    · simp [hnc]
    · simp [hnc, hds, hmem]
  · unfold totalRoutines
    rw [hrun, List.length_set]

/-- An instance of the first part of `toggleComplete_completedToday`: the
routine `Walk` on a Monday. -/
theorem toggleComplete_completedToday_witness :
    completedToday (toggleComplete walkState "w1" 9) 1 = completedToday walkState 1 + 1 ∧
    totalRoutines (toggleComplete walkState "w1" 9) = totalRoutines walkState :=
  toggleComplete_completedToday.1 walkState "w1" 9 1 0
    ⟨"w1", "Walk", some "", some "07:30", some "daily", some ["1", "2", "3", "4", "5"],
      false, some []⟩
    (by decide) (by decide) (fun j _ hj => absurd hj (Nat.not_lt_zero j)) (by decide)
    ⟨["1", "2", "3", "4", "5"], by decide, by decide⟩

/-! ## The per-weekday counts -/

theorem sum_indicator (q : Nat → Bool) (l : List Nat) :
    (l.map (fun i => if q i = true then 1 else 0)).sum = (l.filter q).length := by
  induction l with
  | nil => rfl
  | cons a t ih =>
    by_cases ha : q a = true
    · simp [List.filter, ha, ih]; omega
    · simp only [Bool.not_eq_true] at ha
      simp [List.filter, ha, ih]

theorem weekday_memberships (ds : List String) (hnodup : ds.Nodup)
    (hrange : ∀ x ∈ ds, x ∈ ["0", "1", "2", "3", "4", "5", "6"]) :
    ((List.range 7).filter (fun i => ds.contains (toString i))).length = ds.length := by
  have hmap : (List.range 7).map (fun i : Nat => toString i)
      = ["0", "1", "2", "3", "4", "5", "6"] := by decide
  have hlen : ((List.range 7).filter (fun i => ds.contains (toString i))).length
      = (((List.range 7).map (fun i : Nat => toString i)).filter (fun x => ds.contains x)).length := by
    rw [List.filter_map, List.length_map]
    rfl
  rw [hlen, hmap]
  apply List.Perm.length_eq
  rw [List.perm_ext_iff_of_nodup ((by decide : (["0", "1", "2", "3", "4", "5", "6"] :
    List String).Nodup).filter _) hnodup]
  intro x
  rw [List.mem_filter]
  constructor
  · intro h
    simpa using h.2
  · intro h
    exact ⟨hrange x h, by simpa using h⟩

theorem length_filter_cons (p : Routine → Bool) (r : Routine) (t : List Routine) :
    ((r :: t).filter p).length = (if p r = true then 1 else 0) + (t.filter p).length := by
  by_cases hc : p r = true
  · rw [List.filter_cons_of_pos hc, if_pos hc, List.length_cons]
    omega
  · rw [List.filter_cons_of_neg hc, if_neg hc]
    omega

theorem renderReports_counts (state : State) :
    (renderReports state).1.map Prod.snd =
      (List.range 7).map (fun i => (state.routines.filter (fun r =>
        match r.days with
        | none => false
        | some ds => ds.contains (toString i))).length) := by
  rfl

/-- C10: when the `days` of every routine is absent or holds distinct digit
strings among `"0"`..`"6"`, the seven per-weekday counts of `renderReports`
(for each index, the routines whose days hold it, whatever their repeat) add
up to the number of (routine, day) memberships: the sum over the routines of
the length of `days`, an absent `days` counting 0. -/
theorem renderReports_counts_sum (state : State)
    (hdays : ∀ r ∈ state.routines, ∀ ds, r.days = some ds →
      ds.Nodup ∧ ∀ x ∈ ds, x ∈ ["0", "1", "2", "3", "4", "5", "6"]) :
    ((renderReports state).1.map Prod.snd).sum =
      (state.routines.map (fun r => (r.days.getD []).length)).sum := by
  rw [renderReports_counts]
  obtain ⟨routines, activities⟩ := state
  simp only at hdays ⊢
  induction routines with
  | nil => decide
  | cons r t ih =>
    have ht := ih (fun x hx => hdays x (List.mem_cons_of_mem _ hx))
    have hr := hdays r (List.mem_cons_self _ _)
    have hsplit : ∀ i : Nat,
        ((r :: t).filter (fun r =>
          match r.days with
          | none => false
          | some ds => ds.contains (toString i))).length
        = (if (match r.days with
              | none => false
              | some ds => ds.contains (toString i)) = true then 1 else 0)
          + (t.filter (fun r =>
              match r.days with
              | none => false
              | some ds => ds.contains (toString i))).length := by
      intro i
      exact length_filter_cons _ r t
    simp only [hsplit, List.sum_map_add, List.map_cons, List.sum_cons, ht]
    congr 1
    rw [sum_indicator]
    cases hd : r.days with
    | none => simp
    | some ds =>
      obtain ⟨hn, hx⟩ := hr ds hd
      simpa using weekday_memberships ds hn hx

/-- An instance of `renderReports_counts_sum`: the routine `Walk` alone gives
five memberships for one routine. -/
theorem renderReports_counts_sum_witness :
    ((renderReports walkState).1.map Prod.snd).sum = 5 ∧
    (walkState.routines.map (fun r => (r.days.getD []).length)).sum = 5 ∧
    walkState.routines.length = 1 ∧
    ((renderReports walkState).1.map Prod.snd).sum =
      (walkState.routines.map (fun r => (r.days.getD []).length)).sum :=
  ⟨by decide, by decide, by decide,
    renderReports_counts_sum walkState (by decide)⟩

end Rotinas
